import Mathlib

/-!
Verification of the air-quality analysis pipeline
(`air_quality_analysis.py` / `air_quality_solution.py`).

The script is a linear pandas pipeline over an in-memory table:
cleaning (median imputation + non-negativity clamp on six numeric
columns), aggregation (describe, correlation matrix, grouped means with
idxmax/idxmin, threshold filtering, hourly resampling) and an AQI
classifier `calculate_aqi_pm25`.

Modelling conventions:
* a table cell is `Option ℚ`; `none` models pandas `NaN`;
* `median` follows pandas `Series.median`: sort the non-missing values,
  take the middle element (odd count) or the mean of the two middle
  elements (even count), `NaN` (here `none`) for an empty column;
* `fillna(median)` with an undefined (`NaN`) median is a no-op, as in
  pandas;
* the clamp `lambda x: max(0, x)` follows Python `max`: it keeps the
  first argument `0` unless the second compares strictly greater, so a
  `NaN` second argument yields `0`;
* pandas `Series.idxmax`/`idxmin` keep the first occurrence of the
  extreme value and raise `ValueError` on an empty sequence; the raise
  is modelled by `PdResult.valueError`;
* `groupby` sorts the group keys ascending (pandas default
  `sort=True`).
-/

/-- A table cell: `none` models pandas `NaN`. -/
abbrev Cell : Type := Option ℚ

/-- The non-missing values of a column, in order. -/
def somes (c : List Cell) : List ℚ :=
  c.filterMap (fun x => x)

/-- pandas `Series.median`: sort the values, middle element for an odd
count, mean of the two middle elements for an even count, `NaN`
(`none`) for an empty list. -/
def median (xs : List ℚ) : Option ℚ :=
  let s := List.insertionSort (fun a b => a ≤ b) xs
  if s.length = 0 then none
  else if s.length % 2 = 1 then some (s.getD (s.length / 2) 0)
  else some ((s.getD (s.length / 2 - 1) 0 + s.getD (s.length / 2) 0) / 2)

/-- The imputation loop body `df[col].fillna(df[col].median())`: every
missing cell becomes the median of the column's non-missing values,
computed once from the original column; when that median is itself
undefined (`NaN`), `fillna` is a no-op. -/
def fillCol (c : List Cell) : List Cell :=
  match median (somes c) with
  | none => c
  | some m => c.map (fun x => match x with
      | none => some m
      | some v => some v)

/-- Python `max(0, x)` as used in the clamp loop: `max` keeps its first
argument `0` unless the second compares strictly greater, so a `NaN`
cell yields `0`. -/
def pyMax0 (x : Cell) : ℚ :=
  match x with
  | none => 0
  | some v => if 0 < v then v else 0

/-- The clamp loop body `df[col].apply(lambda x: max(0, x))`. -/
def clampCol (c : List Cell) : List Cell :=
  c.map (fun x => some (pyMax0 x))

/-- Cleaning one column: median imputation, then the non-negativity
clamp. -/
def cleanCol (c : List Cell) : List Cell :=
  clampCol (fillCol c)

/-- The six numeric columns targeted by both cleaning loops. -/
def targetCols : List String :=
  ["PM2.5", "PM10", "O3", "NO2", "Temperature", "Humidity"]

/-- The PM2.5 column name. -/
def colPM25 : String := "PM2.5"

/-- A table as a map from column name to column contents. -/
abbrev AirTable : Type := String → List Cell

/-- The first cleaning loop: `for col in cols: df[col].fillna(df[col].median(), inplace=True)`. -/
def runFill (cols : List String) (t : AirTable) : AirTable :=
  cols.foldl (fun u c => Function.update u c (fillCol (u c))) t

/-- The second cleaning loop: `for col in cols: df[col] = df[col].apply(lambda x: max(0, x))`. -/
def runClamp (cols : List String) (t : AirTable) : AirTable :=
  cols.foldl (fun u c => Function.update u c (clampCol (u c))) t

/-- The whole Cleaner stage: the imputation loop over `cols`, then the
clamp loop over `cols`. -/
def cleanTable (cols : List String) (t : AirTable) : AirTable :=
  runClamp cols (runFill cols t)

/-- The result of a pandas operation that can raise `ValueError`
(`Series.idxmax` / `Series.idxmin` on an empty sequence). -/
inductive PdResult (α : Type) : Type
  | ok (a : α) : PdResult α
  | valueError : PdResult α
  deriving DecidableEq

/-- Sum of a list of rationals. -/
def listSum (xs : List ℚ) : ℚ :=
  xs.foldr (fun a b => a + b) 0

/-- Mean of a list of rationals (division by zero yields `0`, but the
pipeline only applies it to nonempty groups). -/
def listMean (xs : List ℚ) : ℚ :=
  listSum xs / (xs.length : ℚ)

/-- The distinct group keys in ascending order: pandas `groupby` sorts
the keys (default `sort=True`). -/
def groupKeys {α : Type} [LinearOrder α] (rows : List (α × ℚ)) : List α :=
  List.insertionSort (fun a b => a ≤ b) (rows.map Prod.fst).dedup

/-- The values of a group. -/
def groupVals {α : Type} [LinearOrder α] (rows : List (α × ℚ)) (k : α) : List ℚ :=
  (rows.filter (fun p => p.1 = k)).map Prod.snd

/-- The grouped means `df.groupby(key)[value].mean()`: a key-sorted
series of group means. -/
def meanByGroup {α : Type} [LinearOrder α] (rows : List (α × ℚ)) : List (α × ℚ) :=
  (groupKeys rows).map (fun k => (k, listMean (groupVals rows k)))

/-- Scan keeping the running maximum, replacing it only on a strictly
greater value, so the first occurrence of the maximum wins — the
behavior of pandas `Series.idxmax`. -/
def idxmaxAux {α : Type} (best : α × ℚ) : List (α × ℚ) → α × ℚ
  | [] => best
  | p :: rest => if best.2 < p.2 then idxmaxAux p rest else idxmaxAux best rest

/-- pandas `Series.idxmax` (paired with `Series.max`): the first pair
attaining the maximum value, `ValueError` on an empty series. -/
def idxmax {α : Type} (s : List (α × ℚ)) : PdResult (α × ℚ) :=
  match s with
  | [] => PdResult.valueError
  | p :: rest => PdResult.ok (idxmaxAux p rest)

/-- Scan keeping the running minimum, replacing it only on a strictly
smaller value, so the first occurrence of the minimum wins. -/
def idxminAux {α : Type} (best : α × ℚ) : List (α × ℚ) → α × ℚ
  | [] => best
  | p :: rest => if p.2 < best.2 then idxminAux p rest else idxminAux best rest

/-- pandas `Series.idxmin` (paired with `Series.min`): the first pair
attaining the minimum value, `ValueError` on an empty series. -/
def idxmin {α : Type} (s : List (α × ℚ)) : PdResult (α × ℚ) :=
  match s with
  | [] => PdResult.valueError
  | p :: rest => PdResult.ok (idxminAux p rest)

/-- The filter `series[series > threshold]`: the subsequence of
(key, value) pairs whose value exceeds the threshold. -/
def filterThreshold {α : Type} (s : List (α × ℚ)) (threshold : ℚ) : List (α × ℚ) :=
  s.filter (fun p => threshold < p.2)

/-- One reading of the table, with the timestamp already split into a
calendar date and an hour of day, both encoded as numbers. -/
structure Row where
  station : String
  date : Nat
  hour : Nat
  pm25 : ℚ
  deriving DecidableEq

/-- The station the daily-average query is run for. -/
def stationS003 : String := "S003"

/-- The station the hourly resampling query is run for. -/
def stationS001 : String := "S001"

/-- The per-day means `df[df["Station ID"] == sid].groupby("Date")["PM2.5"].mean()`. -/
def dailyAvgPm25 (rows : List Row) (sid : String) : List (Nat × ℚ) :=
  meanByGroup ((rows.filter (fun r => r.station = sid)).map (fun r => (r.date, r.pm25)))

/-- The query `daily_avg_pm25_s003[daily_avg_pm25_s003 > threshold]`. -/
def daysExceeding (rows : List Row) (threshold : ℚ) : List (Nat × ℚ) :=
  filterThreshold (dailyAvgPm25 rows stationS003) threshold

/-- The earliest date in the table, `df["Timestamp"].dt.date.min()`;
`none` on an empty table. -/
def minDate? (rows : List Row) : Option Nat :=
  match rows.map Row.date with
  | [] => none
  | d :: ds => some (ds.foldl min d)

/-- Resampling `series.resample("H").mean()` within one day: one bucket per hour
from the earliest to the latest hour present, the mean of the bucket's
values, `NaN` (`none`) for an hour with no readings, and the empty
series when there are no rows at all. -/
def resampleHourlyMeans (rows : List (Nat × ℚ)) : List (Nat × Option ℚ) :=
  match rows with
  | [] => []
  | r :: rs =>
    let lo := (rs.map Prod.fst).foldl min r.1
    let hi := (rs.map Prod.fst).foldl max r.1
    (List.range' lo (hi + 1 - lo)).map (fun t =>
      let vals := ((r :: rs).filter (fun p => p.1 = t)).map Prod.snd
      (t, if vals.length = 0 then none else some (listMean vals)))

/-- pandas `Series.idxmax` on a series with possible `NaN` entries: `NaN`s are
skipped (`skipna=True`), and an all-`NaN` or empty series raises
`ValueError`. -/
def idxmaxSkipNA (s : List (Nat × Option ℚ)) : PdResult (Nat × ℚ) :=
  idxmax (s.filterMap (fun p => p.2.map (fun v => (p.1, v))))

/-- The peak-hour query of section 5 of the script: restrict to station
S001 on the earliest date, resample hourly, take `idxmax().hour`. -/
def peakHourS001 (rows : List Row) : PdResult Nat :=
  let sel := rows.filter (fun r => r.station = stationS001 ∧ some r.date = minDate? rows)
  match idxmaxSkipNA (resampleHourlyMeans (sel.map (fun r => (r.hour, r.pm25)))) with
  | PdResult.ok p => PdResult.ok p.1
  | PdResult.valueError => PdResult.valueError

/-- A column with its mean subtracted from every entry. -/
def demean (xs : List ℚ) : List ℚ :=
  xs.map (fun v => v - listMean xs)

/-- Sum of products of centered entries, `Σ (xᵢ - mean x) * (yᵢ - mean y)`.
`sxy xs xs` is the sum of squared deviations of `xs`. -/
def sxy (xs ys : List ℚ) : ℚ :=
  listSum (((demean xs).zip (demean ys)).map (fun p => p.1 * p.2))

/-- One entry of `df[correlation_cols].corr()`: the Pearson coefficient
`sxy / (sqrt sxx * sqrt syy)` (the `n - 1` factors of covariance and
standard deviation cancel), and `NaN` (`none`) when either column has
zero variance — pandas reports `NaN` there rather than raising. The
real square root forces this single definition to be noncomputable. -/
noncomputable def corr (xs ys : List ℚ) : Option ℝ :=
  if sxy xs xs = 0 ∨ sxy ys ys = 0 then none
  else some ((sxy xs ys : ℝ) / (Real.sqrt (sxy xs xs : ℝ) * Real.sqrt (sxy ys ys : ℝ)))

/-- The function `calculate_aqi_pm25` from the script, verbatim: a chain of
inclusive-upper-bound threshold tests on the PM2.5 concentration. -/
def calculate_aqi_pm25 (pm25_concentration : ℚ) : String :=
  if pm25_concentration ≤ 12.0 then "Good"
  else if pm25_concentration ≤ 35.4 then "Moderate"
  else if pm25_concentration ≤ 55.4 then "Unhealthy for Sensitive Groups"
  else if pm25_concentration ≤ 150.4 then "Unhealthy"
  else if pm25_concentration ≤ 250.4 then "Very Unhealthy"
  else "Hazardous"

/-- Exact characterization of `calculate_aqi_pm25`: each of the six
labels is returned exactly on its half-open breakpoint interval, with
inclusive upper bounds. -/
theorem calculate_aqi_pm25_spec (q : ℚ) :
    (calculate_aqi_pm25 q = "Good" ↔ q ≤ 12.0) ∧
    (calculate_aqi_pm25 q = "Moderate" ↔ 12.0 < q ∧ q ≤ 35.4) ∧
    (calculate_aqi_pm25 q = "Unhealthy for Sensitive Groups" ↔ 35.4 < q ∧ q ≤ 55.4) ∧
    (calculate_aqi_pm25 q = "Unhealthy" ↔ 55.4 < q ∧ q ≤ 150.4) ∧
    (calculate_aqi_pm25 q = "Very Unhealthy" ↔ 150.4 < q ∧ q ≤ 250.4) ∧
    (calculate_aqi_pm25 q = "Hazardous" ↔ 250.4 < q) := by
  unfold calculate_aqi_pm25
  split_ifs with h1 h2 h3 h4 h5
  · exact ⟨iff_of_true rfl h1,
      iff_of_false (by decide) (fun hc => by linarith [hc.1]),
      iff_of_false (by decide) (fun hc => by linarith [hc.1]),
      iff_of_false (by decide) (fun hc => by linarith [hc.1]),
      iff_of_false (by decide) (fun hc => by linarith [hc.1]),
      iff_of_false (by decide) (fun hc => by linarith [hc])⟩
  · exact ⟨iff_of_false (by decide) (fun hc => h1 hc),
      iff_of_true rfl ⟨not_le.mp h1, h2⟩,
      iff_of_false (by decide) (fun hc => by linarith [hc.1]),
      iff_of_false (by decide) (fun hc => by linarith [hc.1]),
      iff_of_false (by decide) (fun hc => by linarith [hc.1]),
      iff_of_false (by decide) (fun hc => by linarith [hc])⟩
  · exact ⟨iff_of_false (by decide) (fun hc => h1 hc),
      iff_of_false (by decide) (fun hc => h2 hc.2),
      iff_of_true rfl ⟨not_le.mp h2, h3⟩,
      iff_of_false (by decide) (fun hc => by linarith [hc.1]),
      iff_of_false (by decide) (fun hc => by linarith [hc.1]),
      iff_of_false (by decide) (fun hc => by linarith [hc])⟩
  · exact ⟨iff_of_false (by decide) (fun hc => h1 hc),
      iff_of_false (by decide) (fun hc => h2 hc.2),
      iff_of_false (by decide) (fun hc => h3 hc.2),
      iff_of_true rfl ⟨not_le.mp h3, h4⟩,
      iff_of_false (by decide) (fun hc => by linarith [hc.1]),
      iff_of_false (by decide) (fun hc => by linarith [hc])⟩
  · exact ⟨iff_of_false (by decide) (fun hc => h1 hc),
      iff_of_false (by decide) (fun hc => h2 hc.2),
      iff_of_false (by decide) (fun hc => h3 hc.2),
      iff_of_false (by decide) (fun hc => h4 hc.2),
      iff_of_true rfl ⟨not_le.mp h4, h5⟩,
      iff_of_false (by decide) (fun hc => by linarith [hc])⟩
  · exact ⟨iff_of_false (by decide) (fun hc => h1 hc),
      iff_of_false (by decide) (fun hc => h2 hc.2),
      iff_of_false (by decide) (fun hc => h3 hc.2),
      iff_of_false (by decide) (fun hc => h4 hc.2),
      iff_of_false (by decide) (fun hc => h5 hc.2),
      iff_of_true rfl (not_le.mp h5)⟩
/-- C1: the classifier maps a PM2.5 reading to exactly one of six
ordinal categories with inclusive upper bounds — `pm25 ≤ 12.0` yields
Good, `12.0 < pm25 ≤ 35.4` Moderate, `35.4 < pm25 ≤ 55.4` Unhealthy
for Sensitive Groups, `55.4 < pm25 ≤ 150.4` Unhealthy,
`150.4 < pm25 ≤ 250.4` Very Unhealthy and `250.4 < pm25` Hazardous —
and each exact boundary value falls into the lower category. -/
theorem spec_c1 :
    (∀ q : ℚ,
      (calculate_aqi_pm25 q = "Good" ↔ q ≤ 12.0) ∧
      (calculate_aqi_pm25 q = "Moderate" ↔ 12.0 < q ∧ q ≤ 35.4) ∧
      (calculate_aqi_pm25 q = "Unhealthy for Sensitive Groups" ↔ 35.4 < q ∧ q ≤ 55.4) ∧
      (calculate_aqi_pm25 q = "Unhealthy" ↔ 55.4 < q ∧ q ≤ 150.4) ∧
      (calculate_aqi_pm25 q = "Very Unhealthy" ↔ 150.4 < q ∧ q ≤ 250.4) ∧
      (calculate_aqi_pm25 q = "Hazardous" ↔ 250.4 < q)) ∧
    calculate_aqi_pm25 12.0 = "Good" ∧
    calculate_aqi_pm25 35.4 = "Moderate" ∧
    calculate_aqi_pm25 55.4 = "Unhealthy for Sensitive Groups" ∧
    calculate_aqi_pm25 150.4 = "Unhealthy" ∧
    calculate_aqi_pm25 250.4 = "Very Unhealthy" := by
  refine ⟨calculate_aqi_pm25_spec, ?_, ?_, ?_, ?_, ?_⟩
  · exact (calculate_aqi_pm25_spec 12.0).1.mpr le_rfl
  · exact (calculate_aqi_pm25_spec 35.4).2.1.mpr ⟨by norm_num, le_rfl⟩
  · exact (calculate_aqi_pm25_spec 55.4).2.2.1.mpr ⟨by norm_num, le_rfl⟩
  · exact (calculate_aqi_pm25_spec 150.4).2.2.2.1.mpr ⟨by norm_num, le_rfl⟩
  · exact (calculate_aqi_pm25_spec 250.4).2.2.2.2.1.mpr ⟨by norm_num, le_rfl⟩

/-- C4: the classifier is total on every rational input — it always
returns one of the six category labels — and every negative input
falls into the `≤ 12.0` branch and yields Good, with no special-casing
of negative values. -/
theorem spec_c4 (q : ℚ) :
    calculate_aqi_pm25 q ∈
      ["Good", "Moderate", "Unhealthy for Sensitive Groups",
       "Unhealthy", "Very Unhealthy", "Hazardous"] ∧
    (q < 0 → calculate_aqi_pm25 q = "Good") := by
  constructor
  · unfold calculate_aqi_pm25
    split_ifs <;> simp
  · intro h
    exact (calculate_aqi_pm25_spec q).1.mpr (by linarith)

/-- Witness for C4 at the concrete negative input `-5`. -/
theorem spec_c4_witness :
    ((-5 : ℚ) < 0) ∧ calculate_aqi_pm25 (-5) = "Good" :=
  ⟨by decide, (spec_c4 (-5)).2 (by decide)⟩

/-- pandas `median` is `NaN` exactly on an empty (all-missing) input. -/
theorem median_eq_none_iff (xs : List ℚ) : median xs = none ↔ xs = [] := by
  unfold median
  have hl : (List.insertionSort (fun a b => a ≤ b) xs).length = xs.length :=
    List.length_insertionSort _ _
  by_cases h : (List.insertionSort (fun a b => a ≤ b) xs).length = 0
  · rw [if_pos h]
    have hx : xs = [] := List.length_eq_zero.mp (hl ▸ h)
    simp [hx]
  · rw [if_neg h]
    constructor
    · intro hc
      split_ifs at hc
    · intro hx
      subst hx
      exact absurd (by simp : (List.insertionSort (fun a b => a ≤ b) ([] : List ℚ)).length = 0) h

/-- C3: for every column, imputation leaves present values unchanged
and replaces every missing value with the median of the column's
non-missing values, computed once from the original column; in
particular `[10, NaN, 20, NaN, 30]` becomes `[10, 20, 20, 20, 30]`,
both `NaN`s receiving `20`, the median of `{10, 20, 30}`. -/
theorem spec_c3 (c : List Cell) :
    (∀ (i : Nat) (v : ℚ), c.get? i = some (some v) → (fillCol c).get? i = some (some v)) ∧
    (∀ (i : Nat) (m : ℚ), median (somes c) = some m → c.get? i = some none →
      (fillCol c).get? i = some (some m)) ∧
    fillCol [some 10, none, some 20, none, some 30]
      = [some 10, some 20, some 20, some 20, some 30] ∧
    median [10, 20, 30] = some 20 := by
  refine ⟨?_, ?_, ?_, ?_⟩
  · intro i v hi
    unfold fillCol
    cases hm : median (somes c) with
    | none => exact hi
    | some m =>
      rw [List.get?_map, hi]
      rfl
  · intro i m hm hi
    unfold fillCol
    rw [hm, List.get?_map, hi]
    rfl
  · norm_num [fillCol, somes, median, List.insertionSort, List.orderedInsert]
  · norm_num [median, List.insertionSort, List.orderedInsert]

/-- Witness for C3: in the column `[10, NaN, 20, NaN, 30]` the median
of the non-missing values is `20` and position 1 (a `NaN`) is filled
with it. -/
theorem spec_c3_witness :
    median (somes [some 10, none, some 20, none, some 30]) = some 20 ∧
    ([some 10, none, some 20, none, some 30] : List Cell).get? 1 = some none ∧
    (fillCol [some 10, none, some 20, none, some 30]).get? 1 = some (some 20) :=
  ⟨by norm_num [somes, median, List.insertionSort, List.orderedInsert],
   rfl,
   (spec_c3 [some 10, none, some 20, none, some 30]).2.1 1 20
     (by norm_num [somes, median, List.insertionSort, List.orderedInsert]) rfl⟩

/-- Folding a per-column update over a duplicate-free column list acts
pointwise: a column in the list is transformed once, any other column
is untouched. -/
theorem foldl_update_apply (g : List Cell → List Cell) :
    ∀ (cols : List String) (t : AirTable) (a : String), cols.Nodup →
      (cols.foldl (fun u c => Function.update u c (g (u c))) t) a
        = if a ∈ cols then g (t a) else t a := by
  intro cols
  induction cols with
  | nil =>
    intro t a _
    simp
  | cons c cs ih =>
    intro t a hnd
    have hc : c ∉ cs := (List.nodup_cons.mp hnd).1
    have hcs : cs.Nodup := (List.nodup_cons.mp hnd).2
    simp only [List.foldl_cons]
    rw [ih _ a hcs]
    by_cases hac : a = c
    · subst hac
      rw [if_neg hc, if_pos (List.mem_cons_self a cs)]
      simp
    · by_cases hacs : a ∈ cs
      · rw [if_pos hacs, if_pos (List.mem_cons_of_mem c hacs), Function.update_noteq hac]
      · rw [if_neg hacs, if_neg (by simp [hac, hacs]), Function.update_noteq hac]

/-- The Cleaner acts on each column of a duplicate-free column list as
`cleanCol`, leaving all other columns untouched. -/
theorem cleanTable_apply (cols : List String) (hnd : cols.Nodup) (t : AirTable) (a : String) :
    cleanTable cols t a = if a ∈ cols then cleanCol (t a) else t a := by
  unfold cleanTable runClamp runFill cleanCol
  rw [foldl_update_apply clampCol cols _ a hnd, foldl_update_apply fillCol cols t a hnd]
  by_cases h : a ∈ cols <;> simp [h]

/-- C2: after the Cleaner runs (median imputation then clamping), every
cell of each of the six target columns is non-null and non-negative,
including cells that were originally present. -/
theorem spec_c2 (t : AirTable) (col : String) (h : col ∈ targetCols) :
    ∀ x ∈ cleanTable targetCols t col, ∃ v : ℚ, x = some v ∧ 0 ≤ v := by
  intro x hx
  rw [cleanTable_apply targetCols (by decide) t col, if_pos h] at hx
  unfold cleanCol clampCol at hx
  obtain ⟨y, _, hy⟩ := List.mem_map.mp hx
  refine ⟨pyMax0 y, hy.symm, ?_⟩
  unfold pyMax0
  cases y with
  | none => exact le_rfl
  | some v =>
    dsimp only
    split_ifs with hv
    · exact le_of_lt hv
    · exact le_rfl

/-- Witness for C2 on a concrete table whose PM2.5 column holds a
negative value, a missing value and a positive value. -/
theorem spec_c2_witness :
    colPM25 ∈ targetCols ∧
    ∀ x ∈ cleanTable targetCols (fun _ => [some (-3), none, some 5]) colPM25,
      ∃ v : ℚ, x = some v ∧ 0 ≤ v :=
  ⟨by decide, spec_c2 _ _ (by decide)⟩

/-- C10: a cell still missing after imputation happens exactly when the
column has zero non-missing observations (undefined median) and the
cell was missing; the clamp then maps such cells to `0`, so an
all-missing column becomes all zeros, and the Cleaner is total — it
never raises for a column with no observations. -/
theorem spec_c10 (c : List Cell) :
    ((∃ x ∈ fillCol c, x = none) ↔ (somes c = [] ∧ c ≠ [])) ∧
    (somes c = [] → cleanCol c = c.map (fun _ => some (0 : ℚ))) := by
  constructor
  · cases hm : median (somes c) with
    | none =>
      have hs : somes c = [] := (median_eq_none_iff _).mp hm
      have hall : ∀ x ∈ c, x = none := fun x hx => List.filterMap_eq_nil_iff.mp hs x hx
      unfold fillCol
      rw [hm]
      constructor
      · rintro ⟨x, hx, _⟩
        refine ⟨hs, ?_⟩
        rintro rfl
        exact absurd hx (List.not_mem_nil x)
      · rintro ⟨_, hne⟩
        obtain ⟨x, hx⟩ := List.exists_mem_of_ne_nil c hne
        exact ⟨x, hx, hall x hx⟩
    | some m =>
      unfold fillCol
      rw [hm]
      constructor
      · rintro ⟨x, hx, rfl⟩
        obtain ⟨y, _, hy⟩ := List.mem_map.mp hx
        cases y <;> simp at hy
      · rintro ⟨hs, _⟩
        rw [(median_eq_none_iff _).mpr hs] at hm
        exact absurd hm (by simp)
  · intro hs
    unfold cleanCol clampCol
    rw [show fillCol c = c from by unfold fillCol; rw [(median_eq_none_iff _).mpr hs]]
    refine List.map_congr_left ?_
    intro x hx
    rw [List.filterMap_eq_nil_iff.mp hs x hx]
    rfl

/-- Witness for C10: the all-missing column `[NaN, NaN]` has no
observations and is cleaned to all zeros. -/
theorem spec_c10_witness :
    somes [none, none] = [] ∧
    cleanCol [none, none] = ([none, none] : List Cell).map (fun _ => some (0 : ℚ)) :=
  ⟨rfl, (spec_c10 [none, none]).2 rfl⟩

/-- C9: the Cleaner's result is invariant under permutation of the
order in which the six target columns are processed. -/
theorem spec_c9 (t : AirTable) (order : List String) (h : order.Perm targetCols) :
    cleanTable order t = cleanTable targetCols t := by
  have hnd : order.Nodup := h.nodup_iff.mpr (by decide)
  funext a
  rw [cleanTable_apply order hnd t a, cleanTable_apply targetCols (by decide) t a]
  by_cases ha : a ∈ targetCols
  · rw [if_pos (h.mem_iff.mpr ha), if_pos ha]
  · rw [if_neg (fun hc => ha (h.mem_iff.mp hc)), if_neg ha]

/-- Witness for C9 with the reversed column list on a concrete table. -/
theorem spec_c9_witness :
    (["Humidity", "Temperature", "NO2", "O3", "PM10", "PM2.5"] : List String).Perm targetCols ∧
    cleanTable ["Humidity", "Temperature", "NO2", "O3", "PM10", "PM2.5"]
        (fun _ => [some (-1), none])
      = cleanTable targetCols (fun _ => [some (-1), none]) :=
  ⟨by decide, spec_c9 _ _ (by decide)⟩

/-- The idxmax scan returns an element of the series. -/
theorem idxmaxAux_mem {α : Type} (best : α × ℚ) (l : List (α × ℚ)) :
    idxmaxAux best l ∈ best :: l := by
  induction l generalizing best with
  | nil => simp [idxmaxAux]
  | cons p rest ih =>
    unfold idxmaxAux
    split_ifs
    · exact List.mem_cons_of_mem best (ih p)
    · rcases List.mem_cons.mp (ih best) with h | h
      · rw [h]
        exact List.mem_cons_self _ _
      · exact List.mem_cons_of_mem _ (List.mem_cons_of_mem _ h)

/-- The idxmax scan returns a maximal value of the series. -/
theorem idxmaxAux_le {α : Type} (best : α × ℚ) (l : List (α × ℚ)) :
    ∀ p ∈ best :: l, p.2 ≤ (idxmaxAux best l).2 := by
  induction l generalizing best with
  | nil =>
    intro p hp
    rcases List.mem_cons.mp hp with h | h
    · rw [h]
      simp [idxmaxAux]
    · exact absurd h (List.not_mem_nil p)
  | cons q rest ih =>
    intro p hp
    unfold idxmaxAux
    split_ifs with hlt
    · rcases List.mem_cons.mp hp with h | h
      · rw [h]
        exact le_trans (le_of_lt hlt) (ih q q (List.mem_cons_self q rest))
      · exact ih q p h
    · rcases List.mem_cons.mp hp with h | h
      · exact ih best p (h ▸ List.mem_cons_self best rest)
      · rcases List.mem_cons.mp h with h2 | h2
        · rw [h2]
          exact le_trans (not_lt.mp hlt) (ih best best (List.mem_cons_self best rest))
        · exact ih best p (List.mem_cons_of_mem best h2)

/-- The idxmax scan keeps the first occurrence of the maximum: every
element strictly before the returned one is strictly smaller. -/
theorem idxmaxAux_first {α : Type} (best : α × ℚ) (l : List (α × ℚ)) :
    ∃ l₁ l₂, best :: l = l₁ ++ (idxmaxAux best l) :: l₂ ∧
      ∀ p ∈ l₁, p.2 < (idxmaxAux best l).2 := by
  induction l generalizing best with
  | nil => exact ⟨[], [], by simp [idxmaxAux], by simp⟩
  | cons q rest ih =>
    unfold idxmaxAux
    split_ifs with hlt
    · obtain ⟨l₁, l₂, heq, hfst⟩ := ih q
      refine ⟨best :: l₁, l₂, by rw [List.cons_append, ← heq], ?_⟩
      intro p hp
      rcases List.mem_cons.mp hp with h | h
      · rw [h]
        exact lt_of_lt_of_le hlt (idxmaxAux_le q rest q (List.mem_cons_self q rest))
      · exact hfst p h
    · obtain ⟨l₁, l₂, heq, hfst⟩ := ih best
      cases l₁ with
      | nil =>
        simp only [List.nil_append] at heq
        obtain ⟨h1, h2⟩ := List.cons.inj heq
        refine ⟨[], q :: l₂, ?_, by simp⟩
        rw [List.nil_append, ← h1, ← h2]
      | cons b l₁ =>
        simp only [List.cons_append] at heq
        obtain ⟨h1, h2⟩ := List.cons.inj heq
        refine ⟨best :: q :: l₁, l₂, ?_, ?_⟩
        · rw [List.cons_append, List.cons_append, ← h2]
        · intro p hp
          rcases List.mem_cons.mp hp with h | h
          · rw [h, show best.2 = b.2 from congrArg Prod.snd h1]
            exact hfst b (List.mem_cons_self b l₁)
          · rcases List.mem_cons.mp h with h3 | h3
            · rw [h3]
              refine lt_of_le_of_lt (not_lt.mp hlt) ?_
              rw [show best.2 = b.2 from congrArg Prod.snd h1]
              exact hfst b (List.mem_cons_self b l₁)
            · exact hfst p (List.mem_cons_of_mem b h3)

/-- The idxmin scan returns an element of the series. -/
theorem idxminAux_mem {α : Type} (best : α × ℚ) (l : List (α × ℚ)) :
    idxminAux best l ∈ best :: l := by
  induction l generalizing best with
  | nil => simp [idxminAux]
  | cons p rest ih =>
    unfold idxminAux
    split_ifs
    · exact List.mem_cons_of_mem best (ih p)
    · rcases List.mem_cons.mp (ih best) with h | h
      · rw [h]
        exact List.mem_cons_self _ _
      · exact List.mem_cons_of_mem _ (List.mem_cons_of_mem _ h)

/-- The idxmin scan returns a minimal value of the series. -/
theorem idxminAux_le {α : Type} (best : α × ℚ) (l : List (α × ℚ)) :
    ∀ p ∈ best :: l, (idxminAux best l).2 ≤ p.2 := by
  induction l generalizing best with
  | nil =>
    intro p hp
    rcases List.mem_cons.mp hp with h | h
    · rw [h]
      simp [idxminAux]
    · exact absurd h (List.not_mem_nil p)
  | cons q rest ih =>
    intro p hp
    unfold idxminAux
    split_ifs with hlt
    · rcases List.mem_cons.mp hp with h | h
      · rw [h]
        exact le_trans (ih q q (List.mem_cons_self q rest)) (le_of_lt hlt)
      · exact ih q p h
    · rcases List.mem_cons.mp hp with h | h
      · exact ih best p (h ▸ List.mem_cons_self best rest)
      · rcases List.mem_cons.mp h with h2 | h2
        · rw [h2]
          exact le_trans (ih best best (List.mem_cons_self best rest)) (not_lt.mp hlt)
        · exact ih best p (List.mem_cons_of_mem best h2)

/-- The idxmin scan keeps the first occurrence of the minimum: every
element strictly before the returned one is strictly greater. -/
theorem idxminAux_first {α : Type} (best : α × ℚ) (l : List (α × ℚ)) :
    ∃ l₁ l₂, best :: l = l₁ ++ (idxminAux best l) :: l₂ ∧
      ∀ p ∈ l₁, (idxminAux best l).2 < p.2 := by
  induction l generalizing best with
  | nil => exact ⟨[], [], by simp [idxminAux], by simp⟩
  | cons q rest ih =>
    unfold idxminAux
    split_ifs with hlt
    · obtain ⟨l₁, l₂, heq, hfst⟩ := ih q
      refine ⟨best :: l₁, l₂, by rw [List.cons_append, ← heq], ?_⟩
      intro p hp
      rcases List.mem_cons.mp hp with h | h
      · rw [h]
        exact lt_of_le_of_lt (idxminAux_le q rest q (List.mem_cons_self q rest)) hlt
      · exact hfst p h
    · obtain ⟨l₁, l₂, heq, hfst⟩ := ih best
      cases l₁ with
      | nil =>
        simp only [List.nil_append] at heq
        obtain ⟨h1, h2⟩ := List.cons.inj heq
        refine ⟨[], q :: l₂, ?_, by simp⟩
        rw [List.nil_append, ← h1, ← h2]
      | cons b l₁ =>
        simp only [List.cons_append] at heq
        obtain ⟨h1, h2⟩ := List.cons.inj heq
        refine ⟨best :: q :: l₁, l₂, ?_, ?_⟩
        · rw [List.cons_append, List.cons_append, ← h2]
        · intro p hp
          rcases List.mem_cons.mp hp with h | h
          · rw [h, show best.2 = b.2 from congrArg Prod.snd h1]
            exact hfst b (List.mem_cons_self b l₁)
          · rcases List.mem_cons.mp h with h3 | h3
            · rw [h3]
              refine lt_of_lt_of_le ?_ (not_lt.mp hlt)
              rw [show best.2 = b.2 from congrArg Prod.snd h1]
              exact hfst b (List.mem_cons_self b l₁)
            · exact hfst p (List.mem_cons_of_mem b h3)

/-- On a nonempty key-sorted series, `idxmax` returns a pair of the
series whose value is the maximum and whose key is least among the
keys attaining it. -/
theorem idxmax_sorted_spec {α : Type} [LinearOrder α] (s : List (α × ℚ))
    (hne : s ≠ []) (hs : s.Pairwise (fun p q => p.1 ≤ q.1)) :
    ∃ k v, idxmax s = PdResult.ok (k, v) ∧ (k, v) ∈ s ∧
      (∀ p ∈ s, p.2 ≤ v) ∧ (∀ p ∈ s, p.2 = v → k ≤ p.1) := by
  cases s with
  | nil => exact absurd rfl hne
  | cons p rest =>
    refine ⟨(idxmaxAux p rest).1, (idxmaxAux p rest).2, by simp [idxmax], ?_, idxmaxAux_le p rest, ?_⟩
    · simpa using idxmaxAux_mem p rest
    · obtain ⟨l₁, l₂, heq, hfst⟩ := idxmaxAux_first p rest
      intro x hx hxv
      rw [heq] at hx hs
      rcases List.mem_append.mp hx with h | h
      · exact absurd hxv (ne_of_lt (hfst x h))
      · rcases List.mem_cons.mp h with h2 | h2
        · rw [h2]
        · exact (List.pairwise_cons.mp (List.pairwise_append.mp hs).2.1).1 x h2

/-- On a nonempty key-sorted series, `idxmin` returns a pair of the
series whose value is the minimum and whose key is least among the
keys attaining it. -/
theorem idxmin_sorted_spec {α : Type} [LinearOrder α] (s : List (α × ℚ))
    (hne : s ≠ []) (hs : s.Pairwise (fun p q => p.1 ≤ q.1)) :
    ∃ k v, idxmin s = PdResult.ok (k, v) ∧ (k, v) ∈ s ∧
      (∀ p ∈ s, v ≤ p.2) ∧ (∀ p ∈ s, p.2 = v → k ≤ p.1) := by
  cases s with
  | nil => exact absurd rfl hne
  | cons p rest =>
    refine ⟨(idxminAux p rest).1, (idxminAux p rest).2, by simp [idxmin], ?_, idxminAux_le p rest, ?_⟩
    · simpa using idxminAux_mem p rest
    · obtain ⟨l₁, l₂, heq, hfst⟩ := idxminAux_first p rest
      intro x hx hxv
      rw [heq] at hx hs
      rcases List.mem_append.mp hx with h | h
      · exact absurd hxv.symm (ne_of_lt (hfst x h))
      · rcases List.mem_cons.mp h with h2 | h2
        · rw [h2]
        · exact (List.pairwise_cons.mp (List.pairwise_append.mp hs).2.1).1 x h2

/-- Grouped means are sorted by group key, since `groupby` sorts the
keys. -/
theorem meanByGroup_pairwise {α : Type} [LinearOrder α] (rows : List (α × ℚ)) :
    (meanByGroup rows).Pairwise (fun p q => p.1 ≤ q.1) := by
  unfold meanByGroup
  rw [List.pairwise_map]
  simpa using List.sorted_insertionSort (fun a b => a ≤ b) (rows.map Prod.fst).dedup

/-- Grouping a nonempty table yields a nonempty series of means. -/
theorem meanByGroup_ne_nil {α : Type} [LinearOrder α] (rows : List (α × ℚ))
    (h : rows ≠ []) : meanByGroup rows ≠ [] := by
  unfold meanByGroup groupKeys
  intro hc
  rw [List.map_eq_nil_iff] at hc
  have h2 := congrArg List.length hc
  rw [List.length_insertionSort] at h2
  have h3 := List.length_eq_zero.mp h2
  rw [List.dedup_eq_nil, List.map_eq_nil_iff] at h3
  exact h h3

/-- C6: grouped means are key-sorted, and `idxmax` (symmetrically
`idxmin`) returns the extreme value together with the key occurring
first in key-sorted order among the keys attaining it (ties broken by
first occurrence); over groups `{A: [10, 20], B: [30]}` the means are
`{A: 15, B: 30}` with argmax `B` and value `30`. -/
theorem spec_c6 :
    (meanByGroup [('A', (10 : ℚ)), ('A', 20), ('B', 30)] = [('A', 15), ('B', 30)] ∧
     idxmax (meanByGroup [('A', (10 : ℚ)), ('A', 20), ('B', 30)]) = PdResult.ok ('B', 30)) ∧
    (∀ (α : Type) [LinearOrder α] (rows : List (α × ℚ)), rows ≠ [] →
      (∃ k v, idxmax (meanByGroup rows) = PdResult.ok (k, v) ∧
        (k, v) ∈ meanByGroup rows ∧
        (∀ p ∈ meanByGroup rows, p.2 ≤ v) ∧
        (∀ p ∈ meanByGroup rows, p.2 = v → k ≤ p.1)) ∧
      (∃ k v, idxmin (meanByGroup rows) = PdResult.ok (k, v) ∧
        (k, v) ∈ meanByGroup rows ∧
        (∀ p ∈ meanByGroup rows, v ≤ p.2) ∧
        (∀ p ∈ meanByGroup rows, p.2 = v → k ≤ p.1))) := by
  constructor
  · have hmb : meanByGroup [('A', (10 : ℚ)), ('A', 20), ('B', 30)] = [('A', 15), ('B', 30)] := by
      have hk : groupKeys [('A', (10 : ℚ)), ('A', 20), ('B', 30)] = ['A', 'B'] := by decide
      have hv1 : groupVals [('A', (10 : ℚ)), ('A', 20), ('B', 30)] 'A' = [10, 20] := by decide
      have hv2 : groupVals [('A', (10 : ℚ)), ('A', 20), ('B', 30)] 'B' = [30] := by decide
      unfold meanByGroup
      rw [hk]
      simp only [List.map_cons, List.map_nil]
      rw [hv1, hv2]
      norm_num [listMean, listSum]
    refine ⟨hmb, ?_⟩
    rw [hmb]
    norm_num [idxmax, idxmaxAux]
  · intro α instA rows hrows
    exact ⟨idxmax_sorted_spec _ (meanByGroup_ne_nil rows hrows) (meanByGroup_pairwise rows),
           idxmin_sorted_spec _ (meanByGroup_ne_nil rows hrows) (meanByGroup_pairwise rows)⟩

/-- Witness for C6 at the concrete one-row table with group key `A`. -/
theorem spec_c6_witness :
    (([('A', (10 : ℚ))] : List (Char × ℚ)) ≠ []) ∧
    ((∃ k v, idxmax (meanByGroup [('A', (10 : ℚ))]) = PdResult.ok (k, v) ∧
        (k, v) ∈ meanByGroup [('A', (10 : ℚ))] ∧
        (∀ p ∈ meanByGroup [('A', (10 : ℚ))], p.2 ≤ v) ∧
        (∀ p ∈ meanByGroup [('A', (10 : ℚ))], p.2 = v → k ≤ p.1)) ∧
     (∃ k v, idxmin (meanByGroup [('A', (10 : ℚ))]) = PdResult.ok (k, v) ∧
        (k, v) ∈ meanByGroup [('A', (10 : ℚ))] ∧
        (∀ p ∈ meanByGroup [('A', (10 : ℚ))], v ≤ p.2) ∧
        (∀ p ∈ meanByGroup [('A', (10 : ℚ))], p.2 = v → k ≤ p.1))) :=
  ⟨by decide, spec_c6.2 Char [('A', 10)] (by decide)⟩

/-- C7: on a table whose S003 rows span two days with daily PM2.5
means 55 and 48 (besides an S001 row), filtering S003's per-day means
with threshold 50 returns exactly the single entry (day 1, 55); the
day with mean 48 is excluded. -/
theorem spec_c7 :
    daysExceeding
      [⟨"S001", 1, 0, 10⟩, ⟨"S003", 1, 1, 50⟩, ⟨"S003", 1, 2, 60⟩, ⟨"S003", 2, 3, 48⟩]
      50 = [(1, 55)] := by
  have hfil : (([⟨"S001", 1, 0, 10⟩, ⟨"S003", 1, 1, 50⟩, ⟨"S003", 1, 2, 60⟩,
        ⟨"S003", 2, 3, 48⟩] : List Row).filter
          (fun r => r.station = stationS003)).map (fun r => (r.date, r.pm25))
      = [(1, 50), (1, 60), (2, 48)] := by decide
  have hk : groupKeys [((1 : Nat), (50 : ℚ)), (1, 60), (2, 48)] = [1, 2] := by decide
  have h1 : groupVals [((1 : Nat), (50 : ℚ)), (1, 60), (2, 48)] 1 = [50, 60] := by decide
  have h2 : groupVals [((1 : Nat), (50 : ℚ)), (1, 60), (2, 48)] 2 = [48] := by decide
  unfold daysExceeding dailyAvgPm25
  rw [hfil]
  unfold meanByGroup
  rw [hk]
  simp only [List.map_cons, List.map_nil]
  rw [h1, h2]
  norm_num [filterThreshold, listMean, listSum, List.filter]

/-- C8: a resampling query over zero matching rows does not return an
explicit no-data result — the script's `idxmax` raises `ValueError` on
the empty resampled series (modelled by `valueError`) — while the
grouped daily mean over an empty selection does return the explicit
empty series. -/
theorem spec_c8 :
    peakHourS001 [⟨"S002", 0, 0, 10⟩] = PdResult.valueError ∧
    dailyAvgPm25 [⟨"S002", 0, 0, 10⟩] stationS003 = [] := by
  constructor <;> rfl

/-- Summing pairwise products is symmetric in the two lists. -/
theorem listSum_zip_mul_comm :
    ∀ as bs : List ℚ,
      listSum ((as.zip bs).map (fun p => p.1 * p.2))
        = listSum ((bs.zip as).map (fun p => p.1 * p.2)) := by
  intro as
  induction as with
  | nil => intro bs; simp [listSum]
  | cons a as ih =>
    intro bs
    cases bs with
    | nil => simp [listSum]
    | cons b bs =>
      simp only [List.zip_cons_cons, List.map_cons]
      show a * b + listSum _ = b * a + listSum _
      rw [mul_comm, ih bs]

/-- The deviation product sum `sxy` is symmetric. -/
theorem sxy_comm (xs ys : List ℚ) : sxy xs ys = sxy ys xs := by
  unfold sxy
  exact listSum_zip_mul_comm _ _

/-- Zipping a list with itself and multiplying componentwise squares
each entry. -/
theorem zip_self_map (zs : List ℚ) :
    (zs.zip zs).map (fun p => p.1 * p.2) = zs.map (fun v => v * v) := by
  induction zs with
  | nil => rfl
  | cons z zs ih => simp only [List.zip_cons_cons, List.map_cons, ih]

/-- A sum of squares is non-negative. -/
theorem listSum_sq_nonneg (zs : List ℚ) : 0 ≤ listSum (zs.map (fun v => v * v)) := by
  induction zs with
  | nil => exact le_rfl
  | cons z zs ih =>
    show 0 ≤ z * z + listSum _
    exact add_nonneg (mul_self_nonneg z) ih

/-- A sum of squares dominates the square of any member. -/
theorem listSum_sq_ge_mem (zs : List ℚ) (z : ℚ) (hz : z ∈ zs) :
    z * z ≤ listSum (zs.map (fun v => v * v)) := by
  induction zs with
  | nil => exact absurd hz (List.not_mem_nil z)
  | cons w ws ih =>
    show z * z ≤ w * w + listSum _
    rcases List.mem_cons.mp hz with h | h
    · rw [h]
      exact le_add_of_nonneg_right (listSum_sq_nonneg ws)
    · exact le_add_of_nonneg_left (mul_self_nonneg w) |>.trans' (ih h)

/-- The sum of squared deviations is non-negative. -/
theorem sxx_nonneg (xs : List ℚ) : 0 ≤ sxy xs xs := by
  unfold sxy
  rw [zip_self_map]
  exact listSum_sq_nonneg _

/-- A list whose members are all equal sums to length times the value. -/
theorem listSum_const (xs : List ℚ) (x : ℚ) (h : ∀ a ∈ xs, a = x) :
    listSum xs = (xs.length : ℚ) * x := by
  induction xs with
  | nil => simp [listSum]
  | cons a as ih =>
    have ha : a = x := h a (List.mem_cons_self a as)
    have hsum : listSum as = (as.length : ℚ) * x :=
      ih (fun b hb => h b (List.mem_cons_of_mem a hb))
    show a + listSum as = _
    rw [ha, hsum, List.length_cons]
    push_cast
    ring

/-- A list summing zero-valued members sums to zero. -/
theorem listSum_eq_zero (xs : List ℚ) (h : ∀ a ∈ xs, a = 0) : listSum xs = 0 := by
  rw [listSum_const xs 0 h, mul_zero]

/-- A constant column has zero variance: its sum of squared deviations
vanishes. -/
theorem sxx_eq_zero_of_const (xs : List ℚ) (h : ∀ a ∈ xs, ∀ b ∈ xs, a = b) :
    sxy xs xs = 0 := by
  cases xs with
  | nil => rfl
  | cons x rest =>
    have hmem : ∀ a ∈ x :: rest, a = x :=
      fun a ha => h a ha x (List.mem_cons_self x rest)
    have hmean : listMean (x :: rest) = x := by
      unfold listMean
      rw [listSum_const (x :: rest) x hmem, mul_comm]
      have hlen : ((x :: rest).length : ℚ) ≠ 0 := by
        rw [List.length_cons]
        exact_mod_cast Nat.succ_ne_zero rest.length
      exact mul_div_cancel_right₀ x hlen
    unfold sxy
    rw [zip_self_map]
    refine listSum_eq_zero _ ?_
    intro a ha
    obtain ⟨v, hv, rfl⟩ := List.mem_map.mp ha
    obtain ⟨w, hw, rfl⟩ := List.mem_map.mp hv
    rw [hmean, hmem w hw, sub_self, mul_zero]

/-- A column holding two distinct values has strictly positive sum of
squared deviations. -/
theorem sxx_pos_of_nonconst (xs : List ℚ) (h : ∃ a ∈ xs, ∃ b ∈ xs, a ≠ b) :
    0 < sxy xs xs := by
  obtain ⟨a, ha, b, hb, hab⟩ := h
  have hc : ∃ c ∈ xs, c ≠ listMean xs := by
    by_contra hall
    push_neg at hall
    exact hab ((hall a ha).trans (hall b hb).symm)
  obtain ⟨c, hc, hcm⟩ := hc
  have hmem : c - listMean xs ∈ demean xs := List.mem_map.mpr ⟨c, hc, rfl⟩
  have hpos : 0 < (c - listMean xs) * (c - listMean xs) :=
    mul_self_pos.mpr (sub_ne_zero.mpr hcm)
  have hle := listSum_sq_ge_mem (demean xs) (c - listMean xs) hmem
  have : sxy xs xs = listSum ((demean xs).map (fun v => v * v)) := by
    unfold sxy
    rw [zip_self_map]
  rw [this]
  exact lt_of_lt_of_le hpos hle

/-- C5: the correlation entries are symmetric, every non-constant
column correlates with itself at exactly `1.0`, and a constant
(zero-variance) column produces the explicit `NaN` (no-correlation)
entry rather than a crash. -/
theorem spec_c5 (xs ys : List ℚ) :
    corr xs ys = corr ys xs ∧
    ((∃ a ∈ xs, ∃ b ∈ xs, a ≠ b) → corr xs xs = some 1) ∧
    ((∀ a ∈ xs, ∀ b ∈ xs, a = b) → corr xs ys = none) := by
  refine ⟨?_, ?_, ?_⟩
  · unfold corr
    by_cases h : sxy xs xs = 0 ∨ sxy ys ys = 0
    · rw [if_pos h, if_pos (Or.symm h)]
    · rw [if_neg h, if_neg (fun hc => h (Or.symm hc))]
      rw [sxy_comm xs ys, mul_comm]
  · intro h
    have hpos := sxx_pos_of_nonconst xs h
    unfold corr
    rw [if_neg (by rw [or_self]; exact ne_of_gt hpos)]
    have hc : (0 : ℝ) ≤ ((sxy xs xs : ℚ) : ℝ) := by exact_mod_cast le_of_lt hpos
    rw [Real.mul_self_sqrt hc, div_self (by exact_mod_cast ne_of_gt hpos)]
  · intro h
    unfold corr
    rw [if_pos (Or.inl (sxx_eq_zero_of_const xs h))]

/-- Witness for C5: the non-constant column `[10, 20]` self-correlates
at `1` and the constant column `[5, 5]` yields the `NaN` entry. -/
theorem spec_c5_witness :
    (∃ a ∈ [(10 : ℚ), 20], ∃ b ∈ [(10 : ℚ), 20], a ≠ b) ∧
    corr [(10 : ℚ), 20] [(10 : ℚ), 20] = some 1 ∧
    (∀ a ∈ [(5 : ℚ), 5], ∀ b ∈ [(5 : ℚ), 5], a = b) ∧
    corr [(5 : ℚ), 5] [(1 : ℚ), 2] = none :=
  ⟨by decide, (spec_c5 [10, 20] [10, 20]).2.1 (by decide),
   by decide, (spec_c5 [5, 5] [1, 2]).2.2 (by decide)⟩
